import Mathlib

/-!
Verification of the SHARP Studio GUI orchestration layer
(`src/sharp/gui/app.py`).

The development shallowly embeds the orchestration core of the
application: the path gateway (`ensure_within`), the content-addressed
checkpoint store (`store_checkpoint`), the engine cache
(`PredictorCache.get`), the output-root registry (`OutputState`), the
filename pipeline (`safe_filename` / `unique_filename`) and the
per-request pipeline (`process_inference`).

Modelling conventions:
* Filesystem paths are lists of POSIX components (`Path := List String`);
  an absolute path `/a/b` is `["a", "b"]`.  `Path.resolve()` is modelled
  by `resolveComps`, which processes `.` and `..` components (the model
  has no symbolic links; `..` at the root stays at the root, as in POSIX).
* Byte strings are `List Nat`.
* The filesystem is a set of existing paths plus a ghost log of all
  write operations (`FS`); external collaborators (image codec, model,
  renderer) are total and their outputs are opaque.
* `torch.load(..., weights_only=True)` succeeding is an environment
  parameter (`Env.safeLoadOk`); it models the `try` whose
  `pickle.UnpicklingError` / `RuntimeError` failure triggers the
  unsafe-load decision.  SHA-256 is the abstract `Env.digest` function.
* The engine cache carries ghost instrumentation counters
  (`loadCount`, `safeAttempts`, `unsafeAttempts`) counting engine
  constructions and the two `torch.load` variants.
* Python `str(n)` for a counter is the decimal rendering `natDec`.
* `f"{index:02d}"` is `padIndex`.
* All the code runs under `INFERENCE_LOCK` / the caches' mutexes, so
  the concurrent behaviour of the source is the sequential composition
  modelled here.
-/

deriving instance DecidableEq for Except

/-- A filesystem path, as the list of components of an absolute POSIX path. -/
abbrev FsPath := List String

/-- Python `str(path)` for an absolute path given by its components. -/
def pathToString (p : FsPath) : String := "/" ++ String.intercalate "/" p

/-! ### Decimal rendering of naturals (Python `str(n)` / `f"{n}"`) -/

/-- Big-endian decimal digits of `n`, with `fuel` bounding the recursion
(`fuel ≥ n` suffices).  `decDigitsGo fuel 0 = []`. -/
def decDigitsGo : Nat → Nat → List Nat
  | 0, _ => []
  | Nat.succ fuel, n => if n = 0 then [] else decDigitsGo fuel (n / 10) ++ [n % 10]

/-- Big-endian decimal digits of a positive `n` (empty for `0`). -/
def decDigits (n : Nat) : List Nat := decDigitsGo n n

/-- Decimal rendering of a natural number, as Python `str(n)`. -/
def natDec (n : Nat) : String :=
  if n = 0 then "0" else String.mk ((decDigits n).map Nat.digitChar)

/-- Value of a big-endian digit list. -/
def digitsVal (l : List Nat) : Nat := l.foldl (fun a d => a * 10 + d) 0

theorem digitsVal_append_singleton (l : List Nat) (d : Nat) :
    digitsVal (l ++ [d]) = digitsVal l * 10 + d := by
  simp [digitsVal, List.foldl_append]

theorem decDigitsGo_val : ∀ fuel n, n ≤ fuel → digitsVal (decDigitsGo fuel n) = n := by
  intro fuel
  induction fuel with
  | zero => intro n h; interval_cases n; simp [decDigitsGo, digitsVal]
  | succ fuel ih =>
    intro n h
    by_cases hn : n = 0
    · simp [decDigitsGo, hn, digitsVal]
    · have hdiv : n / 10 ≤ fuel := by
        have : n / 10 < n := Nat.div_lt_self (Nat.pos_of_ne_zero hn) (by norm_num)
        omega
      simp only [decDigitsGo, hn, if_false, digitsVal_append_singleton, ih _ hdiv]
      omega

theorem decDigitsGo_lt_ten : ∀ fuel n d, d ∈ decDigitsGo fuel n → d < 10 := by
  intro fuel
  induction fuel with
  | zero => intro n d h; simp [decDigitsGo] at h
  | succ fuel ih =>
    intro n d h
    by_cases hn : n = 0
    · simp [decDigitsGo, hn] at h
    · simp only [decDigitsGo, hn, if_false, List.mem_append, List.mem_singleton] at h
      rcases h with h | h
      · exact ih _ _ h
      · subst h; exact Nat.mod_lt _ (by norm_num)

theorem digitChar_inj_lt : ∀ a < 10, ∀ b < 10, Nat.digitChar a = Nat.digitChar b → a = b := by
  decide

theorem map_digitChar_inj :
    ∀ (l₁ l₂ : List Nat), (∀ d ∈ l₁, d < 10) → (∀ d ∈ l₂, d < 10) →
      l₁.map Nat.digitChar = l₂.map Nat.digitChar → l₁ = l₂ := by
  intro l₁
  induction l₁ with
  | nil => intro l₂ _ _ h; cases l₂ <;> simp_all
  | cons a t ih =>
    intro l₂ h₁ h₂ h
    cases l₂ with
    | nil => simp at h
    | cons b t₂ =>
      simp only [List.map_cons, List.cons.injEq] at h
      have ha := h₁ a (by simp)
      have hb := h₂ b (by simp)
      have hab := digitChar_inj_lt a ha b hb h.1
      subst hab
      have := ih t₂ (fun d hd => h₁ d (by simp [hd])) (fun d hd => h₂ d (by simp [hd])) h.2
      simp [this]

theorem natDec_injective : Function.Injective natDec := by
  intro n m h
  unfold natDec at h
  by_cases hn : n = 0 <;> by_cases hm : m = 0
  · omega
  · exfalso
    simp only [hn, if_true, hm, if_false] at h
    have hdata : ['0'] = (decDigits m).map Nat.digitChar := congrArg String.data h
    have : decDigits m = [0] := by
      have := map_digitChar_inj [0] (decDigits m) (by simp) (decDigitsGo_lt_ten m m) (by simpa using hdata)
      exact this.symm
    have hv : digitsVal (decDigits m) = m := decDigitsGo_val m m le_rfl
    rw [this] at hv
    simp [digitsVal] at hv
    omega
  · exfalso
    simp only [hn, if_false, hm, if_true] at h
    have hdata : (decDigits n).map Nat.digitChar = ['0'] := congrArg String.data h
    have : decDigits n = [0] :=
      map_digitChar_inj (decDigits n) [0] (decDigitsGo_lt_ten n n) (by simp) (by simpa using hdata)
    have hv : digitsVal (decDigits n) = n := decDigitsGo_val n n le_rfl
    rw [this] at hv
    simp [digitsVal] at hv
    omega
  · simp only [hn, if_false, hm, if_false] at h
    have hdata := congrArg String.data h
    simp only [String.mk] at hdata
    have := map_digitChar_inj (decDigits n) (decDigits m)
      (decDigitsGo_lt_ten n n) (decDigitsGo_lt_ten m m) (by simpa using hdata)
    have hv₁ : digitsVal (decDigits n) = n := decDigitsGo_val n n le_rfl
    have hv₂ : digitsVal (decDigits m) = m := decDigitsGo_val m m le_rfl
    rw [this] at hv₁
    omega

theorem natDec_length_pos (n : Nat) : 0 < (natDec n).length := by
  unfold natDec
  by_cases hn : n = 0
  · subst hn; decide
  · simp only [hn, if_false]
    unfold decDigits
    cases n with
    | zero => omega
    | succ k =>
      simp only [decDigitsGo, Nat.succ_ne_zero, if_false]
      simp [String.length, String.mk]

/-! ### Python `pathlib` name / stem / suffix (for plain POSIX path strings) -/

/-- Split a character list on `/` (the semantics of `str.split("/")`). -/
def splitSlashGo : List Char → List Char → List String
  | [], acc => [String.mk acc.reverse]
  | c :: rest, acc =>
    if c = '/' then String.mk acc.reverse :: splitSlashGo rest []
    else splitSlashGo rest (c :: acc)

/-- Components of a POSIX path string as produced by `PurePosixPath`:
split on `/`, dropping empty components and `.` (while `..` is kept). -/
def pyParts (s : String) : List String :=
  (splitSlashGo s.data []).filter (fun c => c ≠ "" && c ≠ ".")

/-- Python `Path(s).name`: the final path component, or `""` when there is none. -/
def pyName (s : String) : String := (pyParts s).getLastD ""

/-- Python `Path(s).suffix`: the extension of the final component.  CPython
computes `i = name.rfind('.')` and returns `name[i:]` when `0 < i < len(name) - 1`,
else `""`.  The reverse-index `j` of the last dot relates to `i` by
`i = len - 1 - j`. -/
def pySuffix (s : String) : String :=
  let cs := (pyName s).data
  match cs.reverse.indexOf? '.' with
  | none => ""
  | some j =>
    if j = 0 || j = cs.length - 1 then ""
    else String.mk (cs.drop (cs.length - 1 - j))

/-- Python `Path(s).stem`: the final component minus its suffix. -/
def pyStem (s : String) : String :=
  let nm := pyName s
  String.mk (nm.data.take (nm.data.length - (pySuffix s).data.length))

/-- `safe_filename` from the source: take the final path component, replace
spaces with underscores, keep only alphanumerics and `.`/`_`/`-`, and fall
back to `"upload"` when nothing is left.  (`Char.isAlphanum` models the
ASCII fragment of `str.isalnum`.) -/
def safe_filename (name : String) : String :=
  let base := String.mk ((pyName name).data.map (fun ch => if ch = ' ' then '_' else ch))
  let filtered := String.mk
    (base.data.filter (fun ch => ch.isAlphanum || ch = '.' || ch = '_' || ch = '-'))
  if filtered = "" then "upload" else filtered

/-! ### `unique_filename` from the source

The Python loop tries `f"{base}{suffix}"` and then `f"{base}-{counter}{suffix}"`
for `counter = 1, 2, ...` until the candidate is not in `used`, then adds the
winner to `used`.  `mkCandidate base sfx c` is the candidate for counter `c`
(`c = 0` being the initial, dash-less attempt); the loop is `ufGo` with fuel
`used.length + 1`, which is proved sufficient below. -/

/-- Candidate filename for a given retry counter. -/
def mkCandidate (base sfx : String) : Nat → String
  | 0 => base ++ sfx
  | Nat.succ c => base ++ "-" ++ natDec (c + 1) ++ sfx

/-- The `while candidate in used` loop of `unique_filename`. -/
def ufGo (base sfx : String) (used : List String) : Nat → Nat → String
  | counter, 0 => mkCandidate base sfx counter
  | counter, Nat.succ fuel =>
    if mkCandidate base sfx counter ∈ used then ufGo base sfx used (counter + 1) fuel
    else mkCandidate base sfx counter

/-- `unique_filename` from the source: returns the chosen name together with
the updated `used` set (the Python version mutates `used` in place). -/
def unique_filename (name : String) (used : List String) : String × List String :=
  let base := pyStem name
  let sfx := pySuffix name
  let cand := ufGo base sfx used 0 (used.length + 1)
  (cand, cand :: used)

theorem mkCandidate_length_succ (base sfx : String) (c : Nat) :
    (mkCandidate base sfx (c + 1)).length
      = base.length + 1 + (natDec (c + 1)).length + sfx.length := by
  simp [mkCandidate, String.length_append]
  decide

theorem mkCandidate_injective (base sfx : String) :
    Function.Injective (mkCandidate base sfx) := by
  intro a b h
  match a, b with
  | 0, 0 => rfl
  | 0, Nat.succ c =>
    exfalso
    have := congrArg String.length h
    rw [mkCandidate_length_succ] at this
    simp [mkCandidate, String.length_append] at this
    have := natDec_length_pos (c + 1)
    omega
  | Nat.succ c, 0 =>
    exfalso
    have := congrArg String.length h
    rw [mkCandidate_length_succ] at this
    simp [mkCandidate, String.length_append] at this
    have := natDec_length_pos (c + 1)
    omega
  | Nat.succ c, Nat.succ d =>
    have hdata := congrArg String.data h
    simp only [mkCandidate, String.data_append] at hdata
    have h₁ := List.append_cancel_right hdata
    have h₂ := List.append_cancel_left h₁
    have : natDec (c + 1) = natDec (d + 1) := String.ext h₂
    have := natDec_injective this
    omega

/-- The block of candidate names for counters `counter, ..., counter + fuel - 1`. -/
def candBlock (base sfx : String) (counter fuel : Nat) : List String :=
  (List.range fuel).map (fun j => mkCandidate base sfx (counter + j))

theorem countP_lt_countP {α : Type} {l : List α} {p q : α → Bool}
    (hpq : ∀ a ∈ l, p a = true → q a = true)
    {x : α} (hx : x ∈ l) (hqx : q x = true) (hpx : ¬ p x = true) :
    l.countP p < l.countP q := by
  induction l with
  | nil => simp at hx
  | cons hd tl ih =>
    rcases List.mem_cons.mp hx with hhd | htl
    · subst hhd
      have hmono : tl.countP p ≤ tl.countP q :=
        List.countP_mono_left (fun a ha hpa => hpq a (List.mem_cons_of_mem _ ha) hpa)
      simp only [List.countP_cons, hqx, hpx, if_true]
      simp only [Bool.not_eq_true] at hpx
      simp [hpx]
      omega
    · have := ih (fun a ha hpa => hpq a (List.mem_cons_of_mem _ ha) hpa) htl
      simp only [List.countP_cons]
      by_cases hp : p hd = true
      · have hq := hpq hd (List.mem_cons_self _ _) hp
        simp [hp, hq]
        omega
      · simp only [Bool.not_eq_true] at hp
        simp [hp]
        split <;> omega

theorem ufGo_not_mem (base sfx : String) (used : List String) :
    ∀ fuel counter,
      used.countP (fun s => decide (s ∈ candBlock base sfx counter fuel)) < fuel →
      ufGo base sfx used counter fuel ∉ used := by
  intro fuel
  induction fuel with
  | zero => intro counter h; omega
  | succ fuel ih =>
    intro counter h
    by_cases hc : mkCandidate base sfx counter ∈ used
    · simp only [ufGo, hc, if_true]
      apply ih
      have hstrict :
          used.countP (fun s => decide (s ∈ candBlock base sfx (counter + 1) fuel))
            < used.countP (fun s => decide (s ∈ candBlock base sfx counter (fuel + 1))) := by
        apply countP_lt_countP (x := mkCandidate base sfx counter)
        · intro a _ hpa
          simp only [decide_eq_true_eq, candBlock, List.mem_map, List.mem_range] at hpa ⊢
          obtain ⟨j, hj, rfl⟩ := hpa
          exact ⟨j + 1, by omega, by ring_nf⟩
        · exact hc
        · simp only [decide_eq_true_eq, candBlock, List.mem_map, List.mem_range]
          exact ⟨0, by omega, by simp⟩
        · simp only [decide_eq_true_eq, candBlock, List.mem_map, List.mem_range]
          rintro ⟨j, hj, hcand⟩
          have := mkCandidate_injective base sfx hcand.symm
          omega
      omega
    · simp [ufGo, hc]

/-- The name chosen by `unique_filename` is fresh: it does not occur in `used`. -/
theorem unique_filename_not_mem (name : String) (used : List String) :
    (unique_filename name used).1 ∉ used := by
  apply ufGo_not_mem
  calc used.countP _ ≤ used.length := List.countP_le_length _
    _ < used.length + 1 := by omega

theorem unique_filename_used (name : String) (used : List String) :
    (unique_filename name used).2 = (unique_filename name used).1 :: used := rfl

/-! ### Path resolution and the path gateway (`ensure_within`) -/

/-- One step of POSIX canonicalization: `.` and empty components are ignored,
`..` removes the last component (a no-op at the filesystem root), every other
component is appended. -/
def resolveStep (acc : List String) (comp : String) : List String :=
  if comp = "" || comp = "." then acc
  else if comp = ".." then acc.dropLast
  else acc ++ [comp]

/-- Canonical (`..`- and `.`-resolved) form of a path, modelling
`pathlib.Path.resolve()` in a filesystem without symbolic links. -/
def resolveComps (p : FsPath) : FsPath := p.foldl resolveStep []

/-- An HTTP-level failure (`fastapi.HTTPException`). -/
structure HTTPError where
  status : Nat
  detail : String
deriving DecidableEq, Repr

/-- `ensure_within` from the source: resolve both paths and accept the
candidate iff it `is_relative_to` the root, else fail with a 400
`"Invalid path."` (the `PathEscape` condition). -/
def ensure_within (root candidate : FsPath) : Except HTTPError FsPath :=
  let resolvedRoot := resolveComps root
  let resolvedCandidate := resolveComps candidate
  if resolvedRoot.isPrefixOf resolvedCandidate then Except.ok resolvedCandidate
  else Except.error { status := 400, detail := "Invalid path." }

/-! ### Filesystem model and the content-addressed checkpoint store -/

/-- An uploaded file: its client-supplied filename and its bytes. -/
structure UploadPayload where
  filename : String
  content : List Nat
deriving DecidableEq, Repr

/-- The filesystem: the set of existing paths (files and directories), plus a
ghost log of every file write performed (`write_bytes`/`write_text`/zip
creation), newest first.  Writing an already existing path overwrites it. -/
structure FS where
  files : List FsPath
  writeLog : List FsPath
deriving DecidableEq, Repr

/-- Write a file: the path exists afterwards and the write is logged. -/
def writeFile (fs : FS) (p : FsPath) : FS :=
  { files := if p ∈ fs.files then fs.files else p :: fs.files,
    writeLog := p :: fs.writeLog }

/-- `mkdir(parents=True, exist_ok=True)`: the directory exists afterwards;
no file write is logged. -/
def mkdirFS (fs : FS) (p : FsPath) : FS :=
  { fs with files := if p ∈ fs.files then fs.files else p :: fs.files }

/-- Environment of the process: availability of accelerators, the outcome of
restricted deserialization per checkpoint path, the content digest (SHA-256),
whether rendering a scene also produces a depth video, and the time/uuid
material of the run id. -/
structure Env where
  cudaAvailable : Bool
  mpsAvailable : Bool
  safeLoadOk : String → Bool
  digest : List Nat → String
  depthVideoProduced : String → Bool
  timeString : String
  uuidHex : String

/-- `store_checkpoint` from the source: write the upload under
`output_root/_checkpoints/<sha256-hex>.pt`, skipping the write when a file of
that name already exists. -/
def store_checkpoint (env : Env) (fs : FS) (payload : UploadPayload)
    (outputRoot : FsPath) : FsPath × FS :=
  let digest := env.digest payload.content
  let cacheDir := outputRoot ++ ["_checkpoints"]
  let fs1 := mkdirFS fs cacheDir
  let checkpointPath := cacheDir ++ [digest ++ ".pt"]
  if checkpointPath ∈ fs1.files then (checkpointPath, fs1)
  else (checkpointPath, writeFile fs1 checkpointPath)

/-! ### The engine cache (`PredictorCache`) -/

/-- The two 400-class failures of `PredictorCache.get` (both `ValueError`
in the source). -/
inductive GetError where
  | unsafeLoadRejected
  | deserializationRejected
deriving DecidableEq, Repr

/-- The `str(exc)` detail carried by each `GetError`. -/
def getErrorMessage : GetError → String
  | GetError.unsafeLoadRejected =>
    "Checkpoint was loaded with unsafe deserialization. Enable unsafe checkpoint loading to use it."
  | GetError.deserializationRejected =>
    "Checkpoint could not be loaded with safe deserialization. Enable unsafe checkpoint loading for trusted files."

/-- State of `PredictorCache`.  `models` and `unsafeFlags` are the two dicts
keyed by `(checkpoint identity, device)`; engines are opaque handles numbered
by `nextEngine`.  `loadCount`, `safeAttempts` and `unsafeAttempts` are ghost
instrumentation: engine constructions, `torch.load(weights_only=True)`
attempts, and `torch.load(weights_only=False)` attempts. -/
structure PredictorCache where
  models : List ((String × String) × Nat)
  unsafeFlags : List ((String × String) × Bool)
  nextEngine : Nat
  loadCount : Nat
  safeAttempts : Nat
  unsafeAttempts : Nat
deriving DecidableEq, Repr

/-- Construct the engine, store it in the cache under `key` with its
`loaded_unsafely` mark, and return it (the tail of `PredictorCache.get`). -/
def cacheStore (c : PredictorCache) (key : String × String) (usedUnsafe : Bool) :
    Except GetError (Nat × Bool) × PredictorCache :=
  (Except.ok (c.nextEngine, usedUnsafe),
   { c with
      models := (key, c.nextEngine) :: c.models
      unsafeFlags := (key, usedUnsafe) :: c.unsafeFlags
      nextEngine := c.nextEngine + 1
      loadCount := c.loadCount + 1 })

/-- `PredictorCache.get` from the source.  `checkpointPath` is `str(path)` of
a stored user checkpoint, or `none` for the default model (key `"default"`).
On a cache hit an unsafely-loaded entry is rejected unless the caller allows
unsafe use; on a miss the default model is downloaded, while a user checkpoint
is first loaded with restricted deserialization and, only on failure and only
with `allowUnsafe`, with full deserialization. -/
def PredictorCache.get (env : Env) (c : PredictorCache) (checkpointPath : Option String)
    (device : String) (allowUnsafe : Bool) :
    Except GetError (Nat × Bool) × PredictorCache :=
  let key := (checkpointPath.getD "default", device)
  match List.lookup key c.models with
  | some engine =>
    let usedUnsafe := (List.lookup key c.unsafeFlags).getD false
    if usedUnsafe && !allowUnsafe then (Except.error GetError.unsafeLoadRejected, c)
    else (Except.ok (engine, usedUnsafe), c)
  | none =>
    match checkpointPath with
    | none => cacheStore c key false
    | some p =>
      let c1 := { c with safeAttempts := c.safeAttempts + 1 }
      if env.safeLoadOk p then cacheStore c1 key false
      else if allowUnsafe then
        cacheStore { c1 with unsafeAttempts := c1.unsafeAttempts + 1 } key true
      else (Except.error GetError.deserializationRejected, c1)

/-! ### The output-root registry (`OutputState`) -/

/-- State of `OutputState`: the global output root and the per-run overrides.
All four operations of the source hold the same lock, so they are modelled as
pure state transitions. -/
structure OutputState where
  root : FsPath
  runs : List (String × FsPath)
deriving DecidableEq, Repr

/-- `OutputState.get_root`. -/
def OutputState.get_root (s : OutputState) : FsPath := s.root

/-- `OutputState.set_root`. -/
def OutputState.set_root (s : OutputState) (r : FsPath) : OutputState :=
  { s with root := r }

/-- `OutputState.set_run_root` (the spec's `bind_run`). -/
def OutputState.set_run_root (s : OutputState) (runId : String) (r : FsPath) : OutputState :=
  { s with runs := (runId, r) :: s.runs }

/-- `OutputState.get_run_root`: the root bound to `runId`, falling back to the
current global root. -/
def OutputState.get_run_root (s : OutputState) (runId : String) : FsPath :=
  (List.lookup runId s.runs).getD s.root

/-- A sequence of `set_root` calls, applied in order. -/
def applySetRoots (s : OutputState) (roots : List FsPath) : OutputState :=
  roots.foldl OutputState.set_root s

/-! ### Device resolution and the per-request pipeline (`process_inference`) -/

/-- `resolve_device` from the source.  `"default"` picks the best available
device; explicit devices are validated against the allowed set and against
availability (the `hasattr(torch, "mps")` conjunct is folded into
`Env.mpsAvailable`).  Errors are the `ValueError` messages. -/
def resolve_device (env : Env) (requested : String) : Except String String :=
  if requested = "default" then
    Except.ok (if env.cudaAvailable then "cuda" else if env.mpsAvailable then "mps" else "cpu")
  else if ¬ (requested = "cpu" ∨ requested = "cuda" ∨ requested = "mps") then
    Except.error "Device must be one of: cpu, cuda, mps, default"
  else if requested = "cuda" ∧ ¬ env.cudaAvailable then
    Except.error "CUDA is not available on this machine."
  else if requested = "mps" ∧ ¬ env.mpsAvailable then
    Except.error "MPS is not available on this machine."
  else Except.ok requested

/-- One entry of the per-run output list (the dict built per upload). -/
structure OutputEntry where
  name : String
  ply : String
  preview : String
  video : Option String
  depth_video : Option String
deriving DecidableEq, Repr

/-- The dict returned by `process_inference`. -/
structure RunResult where
  run_id : String
  device : String
  render_requested : Bool
  render_enabled : Bool
  outputs : List OutputEntry
  warnings : List String
  bundle : String
deriving DecidableEq, Repr

/-- `f"{index:02d}"`: decimal, zero-padded on the left to width 2. -/
def padIndex (n : Nat) : String :=
  let s := natDec n
  if s.length < 2 then "0" ++ s else s

/-- The run id `f"{time.strftime(...)}-{uuid.uuid4().hex[:8]}"`. -/
def mkRunId (env : Env) : String := env.timeString ++ "-" ++ env.uuidHex

/-- Warning appended when rendering is requested but not eligible. -/
def renderWarning : String := "Rendering requires CUDA. Video render was skipped."

/-- Warning appended when the engine instance in use was loaded unsafely. -/
def unsafeWarning : String :=
  "Checkpoint loaded with unsafe deserialization. Only use trusted checkpoint files."

/-- Detail of the empty-image-list rejection. -/
def noImagesDetail : String := "No images provided."

/-- The mutable world threaded through a request: the filesystem and the
process-wide `PREDICTOR_CACHE`. -/
structure World where
  fs : FS
  cache : PredictorCache
deriving DecidableEq, Repr

/-- The per-image loop of `process_inference`: for each upload, assign its
unique sanitized name, write the index-prefixed input bytes, the `.ply`
geometry, the `.preview.jpg` preview and, when rendering is enabled, the
`.mp4` video (plus the `.depth.mp4` depth video when the renderer produced
one — the source checks `depth_path.exists()` on disk). -/
def runUploads (env : Env) (renderEnabled : Bool) (runDir : FsPath) :
    List UploadPayload → Nat → List String → FS → List OutputEntry × FS
  | [], _, _, fs => ([], fs)
  | u :: rest, index, used, fs =>
    let r := unique_filename (safe_filename u.filename) used
    let name := r.1
    let fs1 := writeFile fs (runDir ++ [padIndex index ++ "_" ++ name])
    let stem := pyStem name
    let fs2 := writeFile fs1 (runDir ++ [stem ++ ".ply"])
    let fs3 := writeFile fs2 (runDir ++ [stem ++ ".preview.jpg"])
    if renderEnabled then
      let fs4 := writeFile fs3 (runDir ++ [stem ++ ".mp4"])
      let fs5 := if env.depthVideoProduced stem
        then writeFile fs4 (runDir ++ [stem ++ ".depth.mp4"]) else fs4
      let entry : OutputEntry :=
        { name := name
          ply := stem ++ ".ply"
          preview := stem ++ ".preview.jpg"
          video := some (stem ++ ".mp4")
          depth_video := if (runDir ++ [stem ++ ".depth.mp4"]) ∈ fs5.files
            then some (stem ++ ".depth.mp4") else none }
      let res := runUploads env renderEnabled runDir rest (index + 1) r.2 fs5
      (entry :: res.1, res.2)
    else
      let entry : OutputEntry :=
        { name := name
          ply := stem ++ ".ply"
          preview := stem ++ ".preview.jpg"
          video := none
          depth_video := none }
      let res := runUploads env renderEnabled runDir rest (index + 1) r.2 fs3
      (entry :: res.1, res.2)

/-- The checkpoint identity `process_inference` hands to the cache: `none`
for no upload, else `str` of the content-addressed path of the upload. -/
def checkpointIdentity (env : Env) (checkpoint : Option UploadPayload)
    (outputRoot : FsPath) : Option String :=
  checkpoint.map
    (fun c => pathToString (outputRoot ++ ["_checkpoints", env.digest c.content ++ ".pt"]))

/-- `process_inference` from the source: validate the upload list and the
device, decide render eligibility, create the run directory, store the
checkpoint upload, acquire the engine from the cache, drive the per-image
loop, and write the manifest and the bundle. -/
def process_inference (env : Env) (w : World) (uploads : List UploadPayload)
    (checkpoint : Option UploadPayload) (requestedDevice : String) (render : Bool)
    (allowUnsafe : Bool) (outputRoot : FsPath) :
    Except HTTPError RunResult × World :=
  if uploads.isEmpty then
    (Except.error { status := 400, detail := noImagesDetail }, w)
  else
    match resolve_device env requestedDevice with
    | Except.error msg => (Except.error { status := 400, detail := msg }, w)
    | Except.ok device =>
      let renderEnabled := render && device == "cuda" && env.cudaAvailable
      let warnings0 : List String := if render && !renderEnabled then [renderWarning] else []
      let rid := mkRunId env
      let runDir := outputRoot ++ [rid]
      let fs0 := mkdirFS w.fs runDir
      let stored : Option String × FS :=
        match checkpoint with
        | none => (none, fs0)
        | some cp =>
          let r := store_checkpoint env fs0 cp outputRoot
          (some (pathToString r.1), r.2)
      let gr := PredictorCache.get env w.cache stored.1 device allowUnsafe
      match gr.1 with
      | Except.error e =>
        (Except.error { status := 400, detail := getErrorMessage e },
         { fs := stored.2, cache := gr.2 })
      | Except.ok eu =>
        let warnings1 := warnings0 ++ (if eu.2 then [unsafeWarning] else [])
        let lr := runUploads env renderEnabled runDir uploads 1 [] stored.2
        let fs2 := writeFile lr.2 (runDir ++ ["manifest.json"])
        let fs3 := writeFile fs2 (runDir ++ ["bundle.zip"])
        (Except.ok
          { run_id := rid
            device := device
            render_requested := render
            render_enabled := renderEnabled
            outputs := lr.1
            warnings := warnings1
            bundle := "bundle.zip" },
         { fs := fs3, cache := gr.2 })

/-! ### The name-assignment pipeline in isolation -/

/-- Names assigned to a list of upload filenames, in order, starting from the
given `used` set: sanitize, then de-duplicate. -/
def assignedNamesGo (used : List String) : List String → List String
  | [] => []
  | f :: rest =>
    let r := unique_filename (safe_filename f) used
    r.1 :: assignedNamesGo r.2 rest

/-- Names assigned to the uploads of one run (`used_names` starts empty). -/
def assignedNames (filenames : List String) : List String := assignedNamesGo [] filenames

/-- The index-prefixed input filenames persisted for the assigned names,
starting at index `idx`. -/
def indexedInputNamesFrom (idx : Nat) : List String → List String
  | [] => []
  | n :: rest => (padIndex idx ++ "_" ++ n) :: indexedInputNamesFrom (idx + 1) rest

/-- The index-prefixed input filenames persisted for the assigned names
(`enumerate(uploads, start=1)`). -/
def indexedInputNames (names : List String) : List String := indexedInputNamesFrom 1 names

/-- The geometry filenames persisted for the assigned names. -/
def plyNames (names : List String) : List String :=
  names.map (fun n => pyStem n ++ ".ply")

/-- The preview filenames persisted for the assigned names. -/
def previewNames (names : List String) : List String :=
  names.map (fun n => pyStem n ++ ".preview.jpg")

/-- Filesystem state right after the run directory was created and the optional
checkpoint upload was stored (the state at the engine-acquisition step). -/
def fsAfterStored (env : Env) (fs : FS) (checkpoint : Option UploadPayload)
    (outputRoot runDir : FsPath) : FS :=
  match checkpoint with
  | none => mkdirFS fs runDir
  | some cp => (store_checkpoint env (mkdirFS fs runDir) cp outputRoot).2


/-! ### Concrete fixtures used by witnesses and counterexamples -/

/-- An environment with no accelerators, where restricted deserialization
always succeeds. -/
def envFixture : Env :=
  { cudaAvailable := false
    mpsAvailable := false
    safeLoadOk := fun _ => true
    digest := fun _ => "d0"
    depthVideoProduced := fun _ => false
    timeString := "20260101-000000"
    uuidHex := "abcd1234" }

/-- Like `envFixture`, but restricted deserialization always fails. -/
def envUnsafeFixture : Env :=
  { envFixture with safeLoadOk := fun _ => false }

/-- The empty filesystem. -/
def emptyFS : FS := { files := [], writeLog := [] }

/-- The empty predictor cache. -/
def emptyCache : PredictorCache :=
  { models := [], unsafeFlags := [], nextEngine := 0, loadCount := 0,
    safeAttempts := 0, unsafeAttempts := 0 }

/-- The initial world: empty filesystem, empty cache. -/
def worldFixture : World := { fs := emptyFS, cache := emptyCache }

/-- A cache holding one engine for the default model on cpu, marked as
loaded unsafely. -/
def unsafeHitCache : PredictorCache :=
  { models := [(("default", "cpu"), 7)]
    unsafeFlags := [(("default", "cpu"), true)]
    nextEngine := 8, loadCount := 1, safeAttempts := 1, unsafeAttempts := 1 }

/-- The world built on `unsafeHitCache`. -/
def worldUnsafeHit : World := { fs := emptyFS, cache := unsafeHitCache }

/-! ### Theorems -/

theorem applySetRoots_runs (s : OutputState) (roots : List FsPath) :
    (applySetRoots s roots).runs = s.runs := by
  induction roots generalizing s with
  | nil => rfl
  | cons r rest ih => simpa [applySetRoots, OutputState.set_root] using ih (s.set_root r)

theorem applySetRoots_root (s : OutputState) (roots : List FsPath) :
    (applySetRoots s roots).root = roots.getLastD s.root := by
  induction roots generalizing s with
  | nil => rfl
  | cons r rest ih =>
    show (applySetRoots (s.set_root r) rest).root = (r :: rest).getLastD s.root
    rw [ih]
    cases rest <;> simp [OutputState.set_root, List.getLastD]

/-- C4: once a run_id is bound to a root via `set_run_root` (the spec's
`bind_run`), any later sequence of `set_root` calls leaves `get_run_root`
for that run_id unchanged; `set_root` changes only the global root (the
bindings map is untouched), and an unbound run_id resolves through the
current global root. -/
theorem C4_run_root_stability (s : OutputState) (runId : String) (R1 : FsPath)
    (roots : List FsPath) :
    (applySetRoots (s.set_run_root runId R1) roots).get_run_root runId = R1
    ∧ (applySetRoots (s.set_run_root runId R1) roots).runs = (s.set_run_root runId R1).runs
    ∧ (applySetRoots (s.set_run_root runId R1) roots).get_root = roots.getLastD s.get_root
    ∧ (∀ rid2, rid2 ≠ runId → List.lookup rid2 s.runs = none →
        (applySetRoots (s.set_run_root runId R1) roots).get_run_root rid2 =
          (applySetRoots (s.set_run_root runId R1) roots).get_root) := by
  refine ⟨?_, applySetRoots_runs _ _, ?_, ?_⟩
  · simp [OutputState.get_run_root, applySetRoots_runs, OutputState.set_run_root, List.lookup]
  · simp [applySetRoots_root, OutputState.get_root, OutputState.set_run_root]
  · intro rid2 hne hun
    have hbeq : (rid2 == runId) = false := beq_eq_false_iff_ne.mpr hne
    simp [OutputState.get_run_root, applySetRoots_runs, OutputState.set_run_root,
      OutputState.get_root, List.lookup, hbeq, hun]

/-- C2: for a cached entry marked `loaded_unsafely = true`, a `get` with
`allow_unsafe = false` fails with `UnsafeLoadRejected` even though a usable
instance is cached, while `allow_unsafe = true` succeeds and returns the
same cached engine instance; trust is decided per request, not per entry
(the cache state is unchanged in both cases). -/
theorem C2_per_request_trust (env : Env) (c : PredictorCache) (cp : Option String)
    (device : String) (e : Nat)
    (hm : List.lookup (cp.getD "default", device) c.models = some e)
    (hu : List.lookup (cp.getD "default", device) c.unsafeFlags = some true) :
    PredictorCache.get env c cp device false = (Except.error GetError.unsafeLoadRejected, c)
    ∧ PredictorCache.get env c cp device true = (Except.ok (e, true), c) := by
  simp only [PredictorCache.get, Option.getD_some]
  rw [hm, hu]
  simp

/-- C3: for an uncached user-supplied checkpoint identity, `get` always
attempts the restricted (safe) deserialization first (the safe-attempt
counter increments for every `allow_unsafe`); if the safe attempt fails and
`allow_unsafe = false`, the call fails with `DeserializationRejected` and
the unsafe path is never executed (state changes only by the safe-attempt
count); if it fails and `allow_unsafe = true`, the unsafe deserialization
is performed and the new entry is marked `loaded_unsafely = true`. -/
theorem C3_safe_deserialization_first (env : Env) (c : PredictorCache) (p : String)
    (device : String)
    (hmiss : List.lookup (p, device) c.models = none)
    (hfail : env.safeLoadOk p = false) :
    (∀ allowUnsafe,
      ((PredictorCache.get env c (some p) device allowUnsafe).2).safeAttempts
        = c.safeAttempts + 1)
    ∧ PredictorCache.get env c (some p) device false =
        (Except.error GetError.deserializationRejected,
         { c with safeAttempts := c.safeAttempts + 1 })
    ∧ (PredictorCache.get env c (some p) device true).1 = Except.ok (c.nextEngine, true)
    ∧ List.lookup (p, device)
        ((PredictorCache.get env c (some p) device true).2).unsafeFlags = some true
    ∧ ((PredictorCache.get env c (some p) device true).2).unsafeAttempts
        = c.unsafeAttempts + 1 := by
  simp only [PredictorCache.get, Option.getD_some]
  rw [hmiss]
  refine ⟨?_, ?_, ?_, ?_, ?_⟩
  · intro allowUnsafe
    cases allowUnsafe <;> simp [hfail, cacheStore]
  · simp [hfail, cacheStore]
  · simp [hfail, cacheStore]
  · simp [hfail, cacheStore, List.lookup]
  · simp [hfail, cacheStore]

/-- C6: with an empty upload list, `process_inference` fails with the
400 "No images provided." condition before any other effect: the world
(filesystem and engine cache) is returned unchanged. -/
theorem C6_empty_input_fail_fast (env : Env) (w : World) (checkpoint : Option UploadPayload)
    (requestedDevice : String) (render allowUnsafe : Bool) (outputRoot : FsPath) :
    process_inference env w [] checkpoint requestedDevice render allowUnsafe outputRoot =
      (Except.error { status := 400, detail := noImagesDetail }, w) := by
  simp [process_inference]

theorem resolveComps_append (p q : FsPath) :
    resolveComps (p ++ q) = q.foldl resolveStep (resolveComps p) := by
  simp [resolveComps, List.foldl_append]

theorem resolveStep_dotdot (acc : List String) : resolveStep acc ".." = acc.dropLast := by
  simp [resolveStep]

theorem resolveStep_plain (acc : List String) (x : String)
    (hx : ¬ (x = "" ∨ x = "." ∨ x = "..")) : resolveStep acc x = acc ++ [x] := by
  push_neg at hx
  simp [resolveStep, hx.1, hx.2.1, hx.2.2]

/-- C1 (amended): `ensure_within` succeeds, returning the resolved
candidate, iff the canonical form of the candidate equals the canonical
root or is a descendant of it, and otherwise fails with the 400 `PathEscape`
condition.  The claim's final clause is amended: `ensure_within r (r/"../x")`
fails whenever the canonical root is not the filesystem root and `x` differs
from the root's last component (see `C1_counterexample` for the excluded
cases). -/
theorem C1_path_gateway (root candidate : FsPath) :
    ((∃ p, ensure_within root candidate = Except.ok p) ↔
      (resolveComps candidate = resolveComps root ∨
        ∃ t, t ≠ [] ∧ resolveComps candidate = resolveComps root ++ t))
    ∧ (ensure_within root candidate = Except.ok (resolveComps candidate) ∨
        ensure_within root candidate = Except.error { status := 400, detail := "Invalid path." })
    ∧ (∀ x : String, ¬ (x = "" ∨ x = "." ∨ x = "..") → resolveComps root ≠ [] →
        (resolveComps root).getLast? ≠ some x →
        ensure_within root (root ++ ["..", x]) =
          Except.error { status := 400, detail := "Invalid path." }) := by
  refine ⟨?_, ?_, ?_⟩
  · constructor
    · rintro ⟨p, hp⟩
      unfold ensure_within at hp
      by_cases hpre : (resolveComps root).isPrefixOf (resolveComps candidate)
      · have hIsP : resolveComps root <+: resolveComps candidate :=
          List.isPrefixOf_iff_prefix.mp hpre
        obtain ⟨t, ht⟩ := hIsP
        cases t with
        | nil => left; simp at ht; exact ht.symm
        | cons a rest => right; exact ⟨a :: rest, by simp, ht.symm⟩
      · simp [hpre] at hp
    · intro h
      have hIsP : resolveComps root <+: resolveComps candidate := by
        rcases h with h | ⟨t, _, ht⟩
        · exact h ▸ List.prefix_refl _
        · exact ht ▸ ⟨t, rfl⟩
      unfold ensure_within
      simp [List.isPrefixOf_iff_prefix.mpr hIsP]
  · unfold ensure_within
    by_cases hpre : (resolveComps root).isPrefixOf (resolveComps candidate) <;> simp [hpre]
  · intro x hx hroot hlast
    unfold ensure_within
    have hres : resolveComps (root ++ ["..", x]) = (resolveComps root).dropLast ++ [x] := by
      rw [resolveComps_append]
      simp [List.foldl_cons, resolveStep_dotdot, resolveStep_plain _ x hx]
    rw [hres]
    have hnpre : ¬ (resolveComps root).isPrefixOf ((resolveComps root).dropLast ++ [x]) := by
      intro hpre
      have hIsP : resolveComps root <+: (resolveComps root).dropLast ++ [x] :=
        List.isPrefixOf_iff_prefix.mp hpre
      have hpos : 0 < (resolveComps root).length := List.length_pos.mpr hroot
      have hlen : ((resolveComps root).dropLast ++ [x]).length = (resolveComps root).length := by
        simp [List.length_dropLast]
        omega
      have heq : resolveComps root = (resolveComps root).dropLast ++ [x] :=
        hIsP.eq_of_length hlen.symm
      have hgl : (resolveComps root).getLast? = some x := by
        rw [heq]; simp
      exact hlast hgl
    simp [hnpre]

theorem mkdirFS_of_mem {fs : FS} {p : FsPath} (h : p ∈ fs.files) : mkdirFS fs p = fs := by
  cases fs
  simp_all [mkdirFS]

theorem mkdirFS_mem (fs : FS) (p : FsPath) : p ∈ (mkdirFS fs p).files := by
  by_cases h : p ∈ fs.files <;> simp [mkdirFS, h]

theorem mkdirFS_mono {fs : FS} {q : FsPath} (p : FsPath) (h : q ∈ fs.files) :
    q ∈ (mkdirFS fs p).files := by
  by_cases hp : p ∈ fs.files <;> simp [mkdirFS, hp, h]

theorem writeFile_mem (fs : FS) (p : FsPath) : p ∈ (writeFile fs p).files := by
  by_cases h : p ∈ fs.files <;> simp [writeFile, h]

theorem writeFile_mono {fs : FS} {q : FsPath} (p : FsPath) (h : q ∈ fs.files) :
    q ∈ (writeFile fs p).files := by
  by_cases hp : p ∈ fs.files <;> simp [writeFile, hp, h]

theorem store_checkpoint_path (env : Env) (fs : FS) (p : UploadPayload) (root : FsPath) :
    (store_checkpoint env fs p root).1
      = root ++ ["_checkpoints", env.digest p.content ++ ".pt"] := by
  simp only [store_checkpoint]
  split <;> simp

theorem store_checkpoint_mem (env : Env) (fs : FS) (p : UploadPayload) (root : FsPath) :
    (store_checkpoint env fs p root).1 ∈ (store_checkpoint env fs p root).2.files := by
  simp only [store_checkpoint]
  split
  · next h => simpa using h
  · exact writeFile_mem _ _

theorem store_checkpoint_dir_mem (env : Env) (fs : FS) (p : UploadPayload) (root : FsPath) :
    (root ++ ["_checkpoints"]) ∈ (store_checkpoint env fs p root).2.files := by
  simp only [store_checkpoint]
  split
  · exact mkdirFS_mem _ _
  · exact writeFile_mono _ (mkdirFS_mem _ _)

theorem store_checkpoint_mono {fs : FS} {q : FsPath} (env : Env) (p : UploadPayload)
    (root : FsPath) (h : q ∈ fs.files) : q ∈ (store_checkpoint env fs p root).2.files := by
  simp only [store_checkpoint]
  split
  · exact mkdirFS_mono _ h
  · exact writeFile_mono _ (mkdirFS_mono _ h)

theorem store_checkpoint_idem (env : Env) (fs : FS) (p1 p2 : UploadPayload) (root : FsPath)
    (hcontent : p1.content = p2.content) :
    store_checkpoint env (store_checkpoint env fs p1 root).2 p2 root =
      ((store_checkpoint env fs p1 root).1, (store_checkpoint env fs p1 root).2) := by
  have hdir := store_checkpoint_dir_mem env fs p1 root
  have hmem := store_checkpoint_mem env fs p1 root
  have hpath := store_checkpoint_path env fs p1 root
  set fs1 := (store_checkpoint env fs p1 root).2 with hfs1
  set q := (store_checkpoint env fs p1 root).1 with hq
  rw [hpath] at hmem
  simp only [store_checkpoint]
  rw [← hcontent, mkdirFS_of_mem hdir]
  rw [if_pos (show root ++ ["_checkpoints"] ++ [env.digest p1.content ++ ".pt"] ∈ fs1.files by
    simpa using hmem)]
  simp [hpath]

theorem predictorCache_get_ok_shape (env : Env) (c : PredictorCache) (cp : Option String)
    (device : String) (au : Bool)
    (hmiss : List.lookup (cp.getD "default", device) c.models = none)
    (hok : (PredictorCache.get env c cp device au).1.isOk = true) :
    ∃ flag c2, PredictorCache.get env c cp device au = (Except.ok (c.nextEngine, flag), c2)
      ∧ c2.models = ((cp.getD "default", device), c.nextEngine) :: c.models
      ∧ c2.nextEngine = c.nextEngine + 1
      ∧ c2.loadCount = c.loadCount + 1 := by
  simp only [PredictorCache.get] at hok ⊢
  rw [hmiss] at hok ⊢
  cases cp with
  | none => exact ⟨false, _, rfl, rfl, rfl, rfl⟩
  | some p =>
    simp only [Option.getD_some] at hok ⊢
    by_cases hsafe : env.safeLoadOk p = true
    · rw [if_pos hsafe]
      exact ⟨false, _, rfl, rfl, rfl, rfl⟩
    · rw [if_neg hsafe] at hok ⊢
      cases au with
      | false =>
        rw [if_neg (by simp)] at hok
        simp [Except.isOk, Except.toBool] at hok
      | true =>
        rw [if_pos rfl]
        exact ⟨true, _, rfl, rfl, rfl, rfl⟩

/-- C5: byte-identical weights uploads are stored under the same
content-addressed checkpoint path; re-storing the same content is a no-op
(the existing file is never re-written), so `PredictorCache.get` receives
the same identity; and for that key the underlying engine load executes at
most once across two requests: the first successful `get` performs the one
load, and a second `get` for the same key leaves the cache untouched and,
when it succeeds, returns the same engine. -/
theorem C5_dedup_and_single_load (env : Env) (fs : FS) (root : FsPath)
    (p1 p2 : UploadPayload) (c : PredictorCache) (cp : Option String) (device : String)
    (au1 : Bool)
    (hcontent : p1.content = p2.content)
    (hmiss : List.lookup (cp.getD "default", device) c.models = none)
    (hok : (PredictorCache.get env c cp device au1).1.isOk = true) :
    (store_checkpoint env fs p1 root).1 = (store_checkpoint env fs p2 root).1
    ∧ store_checkpoint env (store_checkpoint env fs p1 root).2 p2 root =
        ((store_checkpoint env fs p1 root).1, (store_checkpoint env fs p1 root).2)
    ∧ checkpointIdentity env (some p1) root = checkpointIdentity env (some p2) root
    ∧ ((PredictorCache.get env c cp device au1).2).loadCount = c.loadCount + 1
    ∧ (∀ au2, (PredictorCache.get env ((PredictorCache.get env c cp device au1).2) cp device au2).2
          = (PredictorCache.get env c cp device au1).2)
    ∧ (∀ au2 e1 b1 e2 b2,
        (PredictorCache.get env c cp device au1).1 = Except.ok (e1, b1) →
        (PredictorCache.get env ((PredictorCache.get env c cp device au1).2) cp device au2).1
          = Except.ok (e2, b2) →
        e2 = e1) := by
  obtain ⟨flag, c2, hget, hm2, hn2, hl2⟩ :=
    predictorCache_get_ok_shape env c cp device au1 hmiss hok
  have hlookup2 : List.lookup (cp.getD "default", device) c2.models = some c.nextEngine := by
    rw [hm2]
    simp [List.lookup]
  refine ⟨by rw [store_checkpoint_path, store_checkpoint_path, hcontent],
    store_checkpoint_idem env fs p1 p2 root hcontent,
    by simp [checkpointIdentity, hcontent],
    by rw [hget]; exact hl2, ?_, ?_⟩
  · intro au2
    rw [hget]
    simp only [PredictorCache.get]
    rw [hlookup2]
    split
    · split <;> rfl
    · next heq => simp at heq
  · intro au2 e1 b1 e2 b2 h1 h2
    rw [hget] at h1 h2
    simp only at h1
    have he1 : e1 = c.nextEngine := by
      have := Except.ok.inj h1
      exact (congrArg Prod.fst this).symm
    simp only [PredictorCache.get] at h2
    rw [hlookup2] at h2
    split at h2
    · next engine heq =>
      have hengine : engine = c.nextEngine := (Option.some.inj heq).symm
      split at h2
      · simp at h2
      · simp only at h2
        have := Except.ok.inj h2
        have he2 : e2 = engine := (congrArg Prod.fst this).symm
        rw [he2, hengine, he1]
    · next heq => simp at heq

theorem process_inference_unfold (env : Env) (w : World) (uploads : List UploadPayload)
    (checkpoint : Option UploadPayload) (requestedDevice : String) (render allowUnsafe : Bool)
    (outputRoot : FsPath) (d : String)
    (hne : uploads ≠ [])
    (hdev : resolve_device env requestedDevice = Except.ok d) :
    process_inference env w uploads checkpoint requestedDevice render allowUnsafe outputRoot =
      (let renderEnabled := render && d == "cuda" && env.cudaAvailable
       let runDir := outputRoot ++ [mkRunId env]
       let fs1 := fsAfterStored env w.fs checkpoint outputRoot runDir
       let gr := PredictorCache.get env w.cache (checkpointIdentity env checkpoint outputRoot)
         d allowUnsafe
       match gr.1 with
       | Except.error e =>
         (Except.error { status := 400, detail := getErrorMessage e },
          { fs := fs1, cache := gr.2 })
       | Except.ok eu =>
         let warnings1 := (if render && !renderEnabled then [renderWarning] else [])
           ++ (if eu.2 then [unsafeWarning] else [])
         let lr := runUploads env renderEnabled runDir uploads 1 [] fs1
         (Except.ok
           { run_id := mkRunId env
             device := d
             render_requested := render
             render_enabled := renderEnabled
             outputs := lr.1
             warnings := warnings1
             bundle := "bundle.zip" },
          { fs := writeFile (writeFile lr.2 (runDir ++ ["manifest.json"]))
              (runDir ++ ["bundle.zip"]), cache := gr.2 })) := by
  have hisEmpty : uploads.isEmpty = false := by
    cases uploads with
    | nil => exact absurd rfl hne
    | cons a t => rfl
  simp only [process_inference, hisEmpty, Bool.false_eq_true, if_false]
  rw [hdev]
  cases checkpoint with
  | none => rfl
  | some cp =>
    simp only [fsAfterStored, checkpointIdentity, Option.map_some]
    rw [store_checkpoint_path]
    rfl

theorem fsAfterStored_runDir_mem (env : Env) (fs : FS) (checkpoint : Option UploadPayload)
    (outputRoot runDir : FsPath) :
    runDir ∈ (fsAfterStored env fs checkpoint outputRoot runDir).files := by
  cases checkpoint with
  | none => exact mkdirFS_mem _ _
  | some cp => exact store_checkpoint_mono _ _ _ (mkdirFS_mem _ _)

theorem fsAfterStored_checkpoint_mem (env : Env) (fs : FS) (cp : UploadPayload)
    (outputRoot runDir : FsPath) :
    (outputRoot ++ ["_checkpoints", env.digest cp.content ++ ".pt"])
      ∈ (fsAfterStored env fs (some cp) outputRoot runDir).files := by
  have h := store_checkpoint_mem env (mkdirFS fs runDir) cp outputRoot
  rw [store_checkpoint_path] at h
  exact h

/-- C9: when `process_inference` fails at the engine-acquisition step, the
failure is not atomic with respect to the filesystem: the run directory,
and the stored checkpoint file when a weights upload was present, exist in
the world returned with the 400-class error and are not removed. -/
theorem C9_engine_failure_leaves_files (env : Env) (w : World) (uploads : List UploadPayload)
    (checkpoint : Option UploadPayload) (requestedDevice : String) (render allowUnsafe : Bool)
    (outputRoot : FsPath) (d : String) (e : GetError)
    (hne : uploads ≠ [])
    (hdev : resolve_device env requestedDevice = Except.ok d)
    (herr : (PredictorCache.get env w.cache (checkpointIdentity env checkpoint outputRoot)
        d allowUnsafe).1 = Except.error e) :
    process_inference env w uploads checkpoint requestedDevice render allowUnsafe outputRoot =
      (Except.error { status := 400, detail := getErrorMessage e },
       { fs := fsAfterStored env w.fs checkpoint outputRoot (outputRoot ++ [mkRunId env])
         cache := (PredictorCache.get env w.cache
           (checkpointIdentity env checkpoint outputRoot) d allowUnsafe).2 })
    ∧ (outputRoot ++ [mkRunId env])
        ∈ (fsAfterStored env w.fs checkpoint outputRoot (outputRoot ++ [mkRunId env])).files
    ∧ (∀ cp, checkpoint = some cp →
        (outputRoot ++ ["_checkpoints", env.digest cp.content ++ ".pt"])
          ∈ (fsAfterStored env w.fs checkpoint outputRoot (outputRoot ++ [mkRunId env])).files) := by
  refine ⟨?_, fsAfterStored_runDir_mem _ _ _ _ _, ?_⟩
  · rw [process_inference_unfold env w uploads checkpoint requestedDevice render allowUnsafe
      outputRoot d hne hdev]
    simp only
    rw [herr]
  · rintro cp rfl
    exact fsAfterStored_checkpoint_mem _ _ _ _ _

/-- C10: every successful run whose engine instance was obtained with
`used_unsafe = true` carries the unsafe-deserialization warning in its
warnings list, including runs that merely reuse an already-cached
unsafely-loaded instance (in which case the cache, and hence the load
count, is unchanged). -/
theorem C10_unsafe_engine_warns (env : Env) (w : World) (uploads : List UploadPayload)
    (checkpoint : Option UploadPayload) (requestedDevice : String) (render allowUnsafe : Bool)
    (outputRoot : FsPath) (d : String) (e : Nat)
    (hne : uploads ≠ [])
    (hdev : resolve_device env requestedDevice = Except.ok d)
    (hget : (PredictorCache.get env w.cache (checkpointIdentity env checkpoint outputRoot)
        d allowUnsafe).1 = Except.ok (e, true)) :
    ∃ r w', process_inference env w uploads checkpoint requestedDevice render allowUnsafe
        outputRoot = (Except.ok r, w')
      ∧ unsafeWarning ∈ r.warnings
      ∧ ((List.lookup ((checkpointIdentity env checkpoint outputRoot).getD "default", d)
            w.cache.models).isSome = true → w'.cache = w.cache) := by
  rw [process_inference_unfold env w uploads checkpoint requestedDevice render allowUnsafe
    outputRoot d hne hdev]
  simp only
  rw [hget]
  refine ⟨_, _, rfl, by simp, ?_⟩
  intro hsome
  obtain ⟨eng, heng⟩ := Option.isSome_iff_exists.mp hsome
  show (PredictorCache.get env w.cache (checkpointIdentity env checkpoint outputRoot)
    d allowUnsafe).2 = w.cache
  simp only [PredictorCache.get]
  rw [heng]
  split
  · split <;> rfl
  · next heq => simp at heq

theorem runUploads_video_none (env : Env) (runDir : FsPath) :
    ∀ (ups : List UploadPayload) (idx : Nat) (used : List String) (fs : FS),
      ∀ o ∈ (runUploads env false runDir ups idx used fs).1,
        o.video = none ∧ o.depth_video = none := by
  intro ups
  induction ups with
  | nil => intro idx used fs o ho; simp [runUploads] at ho
  | cons u rest ih =>
    intro idx used fs o ho
    simp only [runUploads, Bool.false_eq_true, if_false, List.mem_cons] at ho
    rcases ho with rfl | ho
    · exact ⟨rfl, rfl⟩
    · exact ih _ _ _ o ho

/-- C8: when rendering is requested but the resolved device is not CUDA,
`process_inference` still succeeds: `render_enabled` is `false` in the
result, the render warning is appended to the run's warnings, and no output
entry carries a video or depth-video artifact. -/
theorem C8_render_ineligible_succeeds (env : Env) (w : World) (uploads : List UploadPayload)
    (checkpoint : Option UploadPayload) (requestedDevice : String) (allowUnsafe : Bool)
    (outputRoot : FsPath) (d : String)
    (hne : uploads ≠ [])
    (hdev : resolve_device env requestedDevice = Except.ok d)
    (hncuda : d ≠ "cuda")
    (hok : (PredictorCache.get env w.cache (checkpointIdentity env checkpoint outputRoot)
        d allowUnsafe).1.isOk = true) :
    ∃ r w', process_inference env w uploads checkpoint requestedDevice true allowUnsafe
        outputRoot = (Except.ok r, w')
      ∧ r.render_enabled = false
      ∧ renderWarning ∈ r.warnings
      ∧ (∀ o ∈ r.outputs, o.video = none ∧ o.depth_video = none) := by
  have hre : (true && d == "cuda" && env.cudaAvailable) = false := by
    have : (d == "cuda") = false := by
      simp [hncuda]
    simp [this]
  obtain ⟨eu, heu⟩ : ∃ eu, (PredictorCache.get env w.cache
      (checkpointIdentity env checkpoint outputRoot) d allowUnsafe).1 = Except.ok eu := by
    revert hok
    cases (PredictorCache.get env w.cache
      (checkpointIdentity env checkpoint outputRoot) d allowUnsafe).1 with
    | error e => intro h; simp [Except.isOk, Except.toBool] at h
    | ok v => intro _; exact ⟨v, rfl⟩
  rw [process_inference_unfold env w uploads checkpoint requestedDevice true allowUnsafe
    outputRoot d hne hdev]
  simp only
  rw [heu, hre]
  refine ⟨_, _, rfl, rfl, by simp, ?_⟩
  intro o ho
  simp only at ho
  exact runUploads_video_none env _ uploads 1 [] _ o ho

theorem assignedNamesGo_spec : ∀ (l : List String) (used : List String),
    (assignedNamesGo used l).Nodup ∧ ∀ n ∈ assignedNamesGo used l, n ∉ used := by
  intro l
  induction l with
  | nil => intro used; simp [assignedNamesGo]
  | cons f rest ih =>
    intro used
    obtain ⟨ihnd, ihfresh⟩ := ih ((unique_filename (safe_filename f) used).1 :: used)
    have hfresh := unique_filename_not_mem (safe_filename f) used
    constructor
    · refine List.nodup_cons.mpr ⟨?_, ihnd⟩
      intro hmem
      exact ihfresh _ hmem (List.mem_cons_self _ _)
    · intro n hn
      rcases List.mem_cons.mp hn with rfl | hn
      · exact hfresh
      · intro hused
        exact ihfresh n hn (List.mem_cons_of_mem _ hused)

theorem assignedNames_nodup (filenames : List String) : (assignedNames filenames).Nodup :=
  (assignedNamesGo_spec filenames []).1

theorem decDigitsGo_zero (fuel : Nat) : decDigitsGo fuel 0 = [] := by
  cases fuel <;> simp [decDigitsGo]

theorem decDigitsGo_single (fuel m : Nat) (hf : 1 ≤ fuel) (h1 : 1 ≤ m) (h9 : m ≤ 9) :
    decDigitsGo fuel m = [m] := by
  obtain ⟨f, rfl⟩ : ∃ f, fuel = f + 1 := ⟨fuel - 1, by omega⟩
  have hdiv : m / 10 = 0 := Nat.div_eq_of_lt (by omega)
  have hmod : m % 10 = m := Nat.mod_eq_of_lt (by omega)
  have hm0 : ¬ m = 0 := by omega
  simp [decDigitsGo, hdiv, hmod, decDigitsGo_zero, hm0]

theorem natDec_data_le9 (n : Nat) (h : n ≤ 9) : (natDec n).data = [Nat.digitChar n] := by
  by_cases hn : n = 0
  · subst hn; rfl
  · unfold natDec
    rw [if_neg hn]
    unfold decDigits
    rw [decDigitsGo_single n n (by omega) (by omega) h]
    rfl

theorem decDigitsGo_msd : ∀ fuel n, 1 ≤ n → n ≤ fuel →
    ∃ d t, decDigitsGo fuel n = d :: t ∧ 1 ≤ d ∧ d < 10 := by
  intro fuel
  induction fuel with
  | zero => intro n h1 h2; omega
  | succ fuel ih =>
    intro n h1 h2
    have hne : ¬ n = 0 := by omega
    simp only [decDigitsGo, hne, if_false]
    by_cases h9 : n ≤ 9
    · have hdiv : n / 10 = 0 := Nat.div_eq_of_lt (by omega)
      have hmod : n % 10 = n := Nat.mod_eq_of_lt (by omega)
      rw [hdiv, decDigitsGo_zero, hmod]
      exact ⟨n, [], rfl, h1, by omega⟩
    · have hdiv1 : 1 ≤ n / 10 := by omega
      have hdivf : n / 10 ≤ fuel := by
        have : n / 10 < n := Nat.div_lt_self (by omega) (by norm_num)
        omega
      obtain ⟨d, t, heq, hd1, hd10⟩ := ih (n / 10) hdiv1 hdivf
      exact ⟨d, t ++ [n % 10], by rw [heq]; rfl, hd1, hd10⟩

theorem natDec_head (n : Nat) (h1 : 1 ≤ n) :
    ∃ d cs, (natDec n).data = Nat.digitChar d :: cs ∧ 1 ≤ d ∧ d < 10 := by
  obtain ⟨d, t, heq, hd1, hd10⟩ := decDigitsGo_msd n n h1 le_rfl
  refine ⟨d, t.map Nat.digitChar, ?_, hd1, hd10⟩
  unfold natDec decDigits
  rw [if_neg (by omega), heq]
  rfl

theorem natDec_length_one (n : Nat) (h : n ≤ 9) : (natDec n).length = 1 := by
  have := natDec_data_le9 n h
  simp [String.length, this]

theorem natDec_length_ge_two (n : Nat) (h : 10 ≤ n) : 2 ≤ (natDec n).length := by
  unfold natDec decDigits
  rw [if_neg (by omega)]
  obtain ⟨k, rfl⟩ : ∃ k, n = k + 1 := ⟨n - 1, by omega⟩
  simp only [decDigitsGo, Nat.succ_ne_zero, if_false]
  obtain ⟨d, t, heq, _, _⟩ := decDigitsGo_msd k ((k + 1) / 10) (by omega)
    (by
      have : (k + 1) / 10 < k + 1 := Nat.div_lt_self (by omega) (by norm_num)
      omega)
  rw [heq]
  simp [String.length, String.mk]

theorem padIndex_inj : ∀ {n m : Nat}, padIndex n = padIndex m → n = m := by
  intro n m h
  by_cases hn : n ≤ 9 <;> by_cases hm : m ≤ 9
  · have hpn : padIndex n = "0" ++ natDec n := by
      unfold padIndex
      rw [if_pos (by rw [natDec_length_one n hn]; omega)]
    have hpm : padIndex m = "0" ++ natDec m := by
      unfold padIndex
      rw [if_pos (by rw [natDec_length_one m hm]; omega)]
    rw [hpn, hpm] at h
    have hd := congrArg String.data h
    simp only [String.data_append] at hd
    exact natDec_injective (String.ext (List.append_cancel_left hd))
  · exfalso
    have hpn : padIndex n = "0" ++ natDec n := by
      unfold padIndex
      rw [if_pos (by rw [natDec_length_one n hn]; omega)]
    have hpm : padIndex m = natDec m := by
      unfold padIndex
      rw [if_neg (by have := natDec_length_ge_two m (by omega); omega)]
    rw [hpn, hpm] at h
    have hd := congrArg String.data h
    simp only [String.data_append] at hd
    obtain ⟨d, cs, hm', hd1, hd10⟩ := natDec_head m (by omega)
    rw [hm'] at hd
    have h0 : '0' = Nat.digitChar d := by
      simp only [List.singleton_append, List.cons.injEq] at hd
      exact hd.1
    have : (0 : Nat) = d := digitChar_inj_lt 0 (by omega) d hd10 h0
    omega
  · exfalso
    have hpm : padIndex m = "0" ++ natDec m := by
      unfold padIndex
      rw [if_pos (by rw [natDec_length_one m hm]; omega)]
    have hpn : padIndex n = natDec n := by
      unfold padIndex
      rw [if_neg (by have := natDec_length_ge_two n (by omega); omega)]
    rw [hpn, hpm] at h
    have hd := congrArg String.data h
    simp only [String.data_append] at hd
    obtain ⟨d, cs, hn', hd1, hd10⟩ := natDec_head n (by omega)
    rw [hn'] at hd
    have h0 : Nat.digitChar d = '0' := by
      simp only [List.singleton_append, List.cons.injEq] at hd
      exact hd.1
    have : d = (0 : Nat) := digitChar_inj_lt d hd10 0 (by omega) h0
    omega
  · have hpn : padIndex n = natDec n := by
      unfold padIndex
      rw [if_neg (by have := natDec_length_ge_two n (by omega); omega)]
    have hpm : padIndex m = natDec m := by
      unfold padIndex
      rw [if_neg (by have := natDec_length_ge_two m (by omega); omega)]
    rw [hpn, hpm] at h
    exact natDec_injective h

theorem digitChar_ne_underscore : ∀ d < 10, Nat.digitChar d ≠ '_' := by decide

theorem natDec_no_underscore (n : Nat) : '_' ∉ (natDec n).data := by
  by_cases hn : n = 0
  · subst hn; decide
  · unfold natDec
    rw [if_neg hn]
    intro hmem
    simp only [String.mk] at hmem
    obtain ⟨d, hd, hde⟩ := List.mem_map.mp hmem
    exact digitChar_ne_underscore d (decDigitsGo_lt_ten n n d hd) hde

theorem padIndex_no_underscore (n : Nat) : '_' ∉ (padIndex n).data := by
  simp only [padIndex]
  split
  · intro hmem
    rw [String.data_append] at hmem
    rcases List.mem_append.mp hmem with h | h
    · simp at h
    · exact natDec_no_underscore n h
  · exact natDec_no_underscore n

theorem split_first_underscore :
    ∀ (l1 l2 r1 r2 : List Char), '_' ∉ l1 → '_' ∉ l2 →
      l1 ++ '_' :: r1 = l2 ++ '_' :: r2 → l1 = l2 ∧ r1 = r2 := by
  intro l1
  induction l1 with
  | nil =>
    intro l2 r1 r2 _ hl2 h
    cases l2 with
    | nil => simpa using h
    | cons c t =>
      exfalso
      simp only [List.nil_append, List.cons_append, List.cons.injEq] at h
      exact hl2 (h.1 ▸ List.mem_cons_self _ _)
  | cons c t ih =>
    intro l2 r1 r2 hl1 hl2 h
    cases l2 with
    | nil =>
      exfalso
      simp only [List.nil_append, List.cons_append, List.cons.injEq] at h
      exact hl1 (h.1.symm ▸ List.mem_cons_self _ _)
    | cons c' t' =>
      simp only [List.cons_append, List.cons.injEq] at h
      obtain ⟨rfl, h⟩ := h
      have := ih t' r1 r2 (fun hm => hl1 (List.mem_cons_of_mem _ hm))
        (fun hm => hl2 (List.mem_cons_of_mem _ hm)) h
      exact ⟨by rw [this.1], this.2⟩

theorem indexed_name_inj {a b : Nat} {na nb : String}
    (h : padIndex a ++ "_" ++ na = padIndex b ++ "_" ++ nb) : a = b ∧ na = nb := by
  have hd := congrArg String.data h
  simp only [String.data_append] at hd
  rw [List.append_assoc, List.append_assoc] at hd
  have hsplit := split_first_underscore (padIndex a).data (padIndex b).data na.data nb.data
    (padIndex_no_underscore a) (padIndex_no_underscore b) (by simpa using hd)
  exact ⟨padIndex_inj (String.ext hsplit.1), String.ext hsplit.2⟩

theorem indexedInputNamesFrom_shape :
    ∀ (names : List String) (idx : Nat) (m : String), m ∈ indexedInputNamesFrom idx names →
      ∃ k n, idx ≤ k ∧ k < idx + names.length ∧ m = padIndex k ++ "_" ++ n := by
  intro names
  induction names with
  | nil => intro idx m hm; simp [indexedInputNamesFrom] at hm
  | cons n rest ih =>
    intro idx m hm
    rcases List.mem_cons.mp hm with rfl | hm
    · exact ⟨idx, n, le_rfl, by simp, rfl⟩
    · obtain ⟨k, n', hk1, hk2, hn'⟩ := ih (idx + 1) m hm
      exact ⟨k, n', by omega, by simp at hk2 ⊢; omega, hn'⟩

theorem indexedInputNamesFrom_nodup :
    ∀ (names : List String) (idx : Nat), (indexedInputNamesFrom idx names).Nodup := by
  intro names
  induction names with
  | nil => intro idx; simp [indexedInputNamesFrom]
  | cons n rest ih =>
    intro idx
    simp only [indexedInputNamesFrom]
    refine List.nodup_cons.mpr ⟨?_, ih (idx + 1)⟩
    intro hmem
    obtain ⟨k, n', hk1, hk2, heq⟩ := indexedInputNamesFrom_shape rest (idx + 1) _ hmem
    have := indexed_name_inj heq
    omega

theorem indexedInputNames_nodup (names : List String) :
    (indexedInputNames names).Nodup :=
  indexedInputNamesFrom_nodup names 1

theorem append_right_injective (t : String) : Function.Injective (fun s => s ++ t) := by
  intro a b h
  exact String.ext (List.append_cancel_right (congrArg String.data h))

theorem plyNames_nodup (names : List String) (h : (names.map pyStem).Nodup) :
    (plyNames names).Nodup := by
  have : plyNames names = (names.map pyStem).map (fun s => s ++ ".ply") := by
    simp [plyNames, List.map_map]
  rw [this]
  exact h.map (append_right_injective _)

theorem previewNames_nodup (names : List String) (h : (names.map pyStem).Nodup) :
    (previewNames names).Nodup := by
  have : previewNames names = (names.map pyStem).map (fun s => s ++ ".preview.jpg") := by
    simp [previewNames, List.map_map]
  rw [this]
  exact h.map (append_right_injective _)

theorem ply_ne_preview (s1 s2 : String) : s1 ++ ".ply" ≠ s2 ++ ".preview.jpg" := by
  intro h
  have hd := congrArg (fun s => s.data.reverse.head?) h
  simp [String.data_append, List.reverse_append] at hd

theorem mem_writeFile_iff (fs : FS) (p q : FsPath) :
    q ∈ (writeFile fs p).files ↔ q = p ∨ q ∈ fs.files := by
  by_cases h : p ∈ fs.files
  · simp only [writeFile, h, if_true]
    constructor
    · intro hq
      exact Or.inr hq
    · rintro (rfl | hq)
      · exact h
      · exact hq
  · simp [writeFile, h]

theorem runUploads_names (env : Env) (re : Bool) (runDir : FsPath) :
    ∀ (ups : List UploadPayload) (idx : Nat) (used : List String) (fs : FS),
      (runUploads env re runDir ups idx used fs).1.map (fun o => o.name)
        = assignedNamesGo used (ups.map (fun u => u.filename)) := by
  intro ups
  induction ups with
  | nil => intro idx used fs; simp [runUploads, assignedNamesGo]
  | cons u rest ih =>
    intro idx used fs
    cases re <;>
      simp only [runUploads, List.map_cons, assignedNamesGo, Bool.false_eq_true, if_false,
        if_true, List.map_cons, List.cons.injEq] <;>
      exact ⟨trivial, ih _ _ _⟩

theorem runUploads_entry_shape (env : Env) (re : Bool) (runDir : FsPath) :
    ∀ (ups : List UploadPayload) (idx : Nat) (used : List String) (fs : FS),
      ∀ o ∈ (runUploads env re runDir ups idx used fs).1,
        o.ply = pyStem o.name ++ ".ply" ∧ o.preview = pyStem o.name ++ ".preview.jpg" := by
  intro ups
  induction ups with
  | nil => intro idx used fs o ho; simp [runUploads] at ho
  | cons u rest ih =>
    intro idx used fs o ho
    cases re <;>
      simp only [runUploads, Bool.false_eq_true, if_false, if_true, List.mem_cons] at ho <;>
      (rcases ho with rfl | ho
       · exact ⟨rfl, rfl⟩
       · exact ih _ _ _ o ho)

theorem runUploads_mono (env : Env) (re : Bool) (runDir : FsPath) :
    ∀ (ups : List UploadPayload) (idx : Nat) (used : List String) (fs : FS) (q : FsPath),
      q ∈ fs.files → q ∈ (runUploads env re runDir ups idx used fs).2.files := by
  intro ups
  induction ups with
  | nil => intro idx used fs q hq; exact hq
  | cons u rest ih =>
    intro idx used fs q hq
    cases re <;> simp only [runUploads, Bool.false_eq_true, if_false, if_true] <;> apply ih <;>
      by_cases hdepth : env.depthVideoProduced
        (pyStem (unique_filename (safe_filename u.filename) used).1) = true <;>
      simp [hdepth, mem_writeFile_iff, hq]

theorem runUploads_input_files (env : Env) (re : Bool) (runDir : FsPath) :
    ∀ (ups : List UploadPayload) (idx : Nat) (used : List String) (fs : FS),
      ∀ n ∈ indexedInputNamesFrom idx
          ((runUploads env re runDir ups idx used fs).1.map (fun o => o.name)),
        (runDir ++ [n]) ∈ (runUploads env re runDir ups idx used fs).2.files := by
  intro ups
  induction ups with
  | nil => intro idx used fs n hn; simp [runUploads, indexedInputNamesFrom] at hn
  | cons u rest ih =>
    intro idx used fs n hn
    cases re <;>
      simp only [runUploads, Bool.false_eq_true, if_false, if_true, List.map_cons,
        indexedInputNamesFrom, List.mem_cons] at hn ⊢ <;>
      (rcases hn with rfl | hn
       · apply runUploads_mono
         by_cases hdepth : env.depthVideoProduced
           (pyStem (unique_filename (safe_filename u.filename) used).1) = true <;>
           simp [hdepth, mem_writeFile_iff]
       · exact ih _ _ _ n hn)

theorem runUploads_artifact_files (env : Env) (re : Bool) (runDir : FsPath) :
    ∀ (ups : List UploadPayload) (idx : Nat) (used : List String) (fs : FS),
      ∀ o ∈ (runUploads env re runDir ups idx used fs).1,
        (runDir ++ [o.ply]) ∈ (runUploads env re runDir ups idx used fs).2.files
        ∧ (runDir ++ [o.preview]) ∈ (runUploads env re runDir ups idx used fs).2.files := by
  intro ups
  induction ups with
  | nil => intro idx used fs o ho; simp [runUploads] at ho
  | cons u rest ih =>
    intro idx used fs o ho
    cases re <;>
      simp only [runUploads, Bool.false_eq_true, if_false, if_true, List.mem_cons] at ho ⊢ <;>
      (rcases ho with rfl | ho
       · refine ⟨runUploads_mono env _ runDir _ _ _ _ _ ?_,
           runUploads_mono env _ runDir _ _ _ _ _ ?_⟩ <;>
           by_cases hdepth : env.depthVideoProduced
             (pyStem (unique_filename (safe_filename u.filename) used).1) = true <;>
           simp [hdepth, mem_writeFile_iff]
       · exact ih _ _ _ o ho)

/-- C7 (amended): each upload filename is sanitized and de-duplicated in
order (`assignedNames`), and every output entry derives its geometry and
preview filenames from the chosen name's stem.  The de-duplicated names are
pairwise distinct; the index-prefixed input filenames are pairwise
distinct; geometry filenames (and preview
filenames) are pairwise distinct whenever the de-duplicated names have
pairwise-distinct stems (not in general: see `C7_counterexample`); a
geometry filename never collides with a preview filename; and all these
files exist in the run directory.  In particular two uploads both named
`a.png` yield `a.png` and `a-1.png` (see `C7_witness`). -/
theorem C7_filename_pipeline (env : Env) (w : World) (uploads : List UploadPayload)
    (checkpoint : Option UploadPayload) (requestedDevice : String) (render allowUnsafe : Bool)
    (outputRoot : FsPath) (d : String)
    (hne : uploads ≠ [])
    (hdev : resolve_device env requestedDevice = Except.ok d)
    (hok : (PredictorCache.get env w.cache (checkpointIdentity env checkpoint outputRoot)
        d allowUnsafe).1.isOk = true) :
    ∃ r w', process_inference env w uploads checkpoint requestedDevice render allowUnsafe
        outputRoot = (Except.ok r, w')
      ∧ r.outputs.map (fun o => o.name) = assignedNames (uploads.map (fun u => u.filename))
      ∧ (∀ o ∈ r.outputs, o.ply = pyStem o.name ++ ".ply"
          ∧ o.preview = pyStem o.name ++ ".preview.jpg")
      ∧ (r.outputs.map (fun o => o.name)).Nodup
      ∧ (indexedInputNames (r.outputs.map (fun o => o.name))).Nodup
      ∧ ((r.outputs.map (fun o => o.name)).map pyStem |>.Nodup →
          (plyNames (r.outputs.map (fun o => o.name))).Nodup
          ∧ (previewNames (r.outputs.map (fun o => o.name))).Nodup)
      ∧ (∀ o1 ∈ r.outputs, ∀ o2 ∈ r.outputs, o1.ply ≠ o2.preview)
      ∧ (∀ n ∈ indexedInputNames (r.outputs.map (fun o => o.name)),
          (outputRoot ++ [mkRunId env] ++ [n]) ∈ w'.fs.files)
      ∧ (∀ o ∈ r.outputs,
          (outputRoot ++ [mkRunId env] ++ [o.ply]) ∈ w'.fs.files
          ∧ (outputRoot ++ [mkRunId env] ++ [o.preview]) ∈ w'.fs.files) := by
  obtain ⟨eu, heu⟩ : ∃ eu, (PredictorCache.get env w.cache
      (checkpointIdentity env checkpoint outputRoot) d allowUnsafe).1 = Except.ok eu := by
    revert hok
    cases (PredictorCache.get env w.cache
      (checkpointIdentity env checkpoint outputRoot) d allowUnsafe).1 with
    | error e => intro h; simp [Except.isOk, Except.toBool] at h
    | ok v => intro _; exact ⟨v, rfl⟩
  rw [process_inference_unfold env w uploads checkpoint requestedDevice render allowUnsafe
    outputRoot d hne hdev]
  simp only
  rw [heu]
  have hnames := runUploads_names env (render && d == "cuda" && env.cudaAvailable)
    (outputRoot ++ [mkRunId env]) uploads 1 []
    (fsAfterStored env w.fs checkpoint outputRoot (outputRoot ++ [mkRunId env]))
  refine ⟨_, _, rfl, ?_, ?_, ?_, ?_, ?_, ?_, ?_, ?_⟩
  · exact hnames
  · exact runUploads_entry_shape env _ _ uploads 1 [] _
  · rw [hnames]; exact assignedNames_nodup _
  · rw [hnames]
    exact indexedInputNamesFrom_nodup _ 1
  · intro hstems
    exact ⟨plyNames_nodup _ hstems, previewNames_nodup _ hstems⟩
  · intro o1 h1 o2 h2
    have s1 := (runUploads_entry_shape env _ _ uploads 1 [] _ o1 h1).1
    have s2 := (runUploads_entry_shape env _ _ uploads 1 [] _ o2 h2).2
    rw [s1, s2]
    exact ply_ne_preview _ _
  · intro n hn
    simp only [mem_writeFile_iff]
    right; right
    exact runUploads_input_files env _ _ uploads 1 [] _ n hn
  · intro o ho
    have := runUploads_artifact_files env _ _ uploads 1 [] _ o ho
    constructor <;> simp only [mem_writeFile_iff] <;> right <;> right
    · exact this.1
    · exact this.2

/-! ### Counterexamples and witnesses -/

/-- Counterexample to C1's final clause: with root `/x`, the candidate
`/x/../x` resolves back to the root itself, so `ensure_within` succeeds
instead of failing (the same happens with the filesystem root `/`). -/
theorem C1_counterexample :
    ensure_within ["x"] (["x"] ++ ["..", "x"]) = Except.ok ["x"] := by decide

/-- Witness for C1: for root `/a/b` the escape `/a/b/../z` is rejected. -/
theorem C1_witness :
    ensure_within ["a", "b"] (["a", "b"] ++ ["..", "z"]) =
      Except.error { status := 400, detail := "Invalid path." } :=
  (C1_path_gateway ["a", "b"] []).2.2 "z" (by decide) (by decide) (by decide)

/-- Witness for C2 at a concrete unsafely-loaded cache entry. -/
theorem C2_witness :
    PredictorCache.get envFixture unsafeHitCache none "cpu" false
        = (Except.error GetError.unsafeLoadRejected, unsafeHitCache)
    ∧ PredictorCache.get envFixture unsafeHitCache none "cpu" true
        = (Except.ok (7, true), unsafeHitCache) :=
  C2_per_request_trust envFixture unsafeHitCache none "cpu" 7 (by decide) (by decide)

/-- Witness for C3 at a concrete checkpoint whose safe deserialization fails. -/
theorem C3_witness :
    envUnsafeFixture.safeLoadOk "p" = false
    ∧ PredictorCache.get envUnsafeFixture emptyCache (some "p") "cpu" false =
        (Except.error GetError.deserializationRejected,
         { emptyCache with safeAttempts := emptyCache.safeAttempts + 1 })
    ∧ (PredictorCache.get envUnsafeFixture emptyCache (some "p") "cpu" true).1
        = Except.ok (emptyCache.nextEngine, true) :=
  have h := C3_safe_deserialization_first envUnsafeFixture emptyCache "p" "cpu"
    (by decide) (by decide)
  ⟨by decide, h.2.1, h.2.2.1⟩

/-- Witness for C4: a run bound under root `R1` still resolves through `R1`
after `set_root R2`, while an unbound run resolves through `R2`. -/
theorem C4_witness :
    (applySetRoots (OutputState.set_run_root ⟨["R1"], []⟩ "run-a" ["R1"]) [["R2"]]).get_run_root
        "run-a" = ["R1"]
    ∧ (applySetRoots (OutputState.set_run_root ⟨["R1"], []⟩ "run-a" ["R1"]) [["R2"]]).get_run_root
        "run-b" = ["R2"] :=
  have h := C4_run_root_stability ⟨["R1"], []⟩ "run-a" ["R1"] [["R2"]]
  ⟨h.1, (h.2.2.2 "run-b" (by decide) (by decide)).trans (by decide)⟩

/-- Witness for C5 at two byte-identical uploads and a concrete first load. -/
theorem C5_witness :
    (store_checkpoint envFixture emptyFS ⟨"w1", [1, 2]⟩ ["root"]).1
        = (store_checkpoint envFixture emptyFS ⟨"w2", [1, 2]⟩ ["root"]).1
    ∧ ((PredictorCache.get envFixture emptyCache (some "p") "cpu" false).2).loadCount
        = emptyCache.loadCount + 1
    ∧ (PredictorCache.get envFixture
          ((PredictorCache.get envFixture emptyCache (some "p") "cpu" false).2)
          (some "p") "cpu" false).2
        = (PredictorCache.get envFixture emptyCache (some "p") "cpu" false).2 :=
  have h := C5_dedup_and_single_load envFixture emptyFS ["root"] ⟨"w1", [1, 2]⟩ ⟨"w2", [1, 2]⟩
    emptyCache (some "p") "cpu" false rfl (by decide) (by decide)
  ⟨h.1, h.2.2.2.1, h.2.2.2.2.1 false⟩

/-- Counterexample to C7: uploads `a.png` and `a.jpg` (distinct even before
de-duplication, but with the same stem) both persist the geometry filename
`a.ply`, so the files written into the run directory are not pairwise
distinct and the second geometry file overwrites the first. -/
theorem C7_counterexample :
    ((process_inference envFixture worldFixture
        [⟨"a.png", [1]⟩, ⟨"a.jpg", [2]⟩] none "cpu" false false ["root"]).1.toOption.map
      (fun r => r.outputs.map (fun o => o.ply))) = some ["a.ply", "a.ply"] := by decide

/-- Witness for C7: two uploads both named `a.png` get the names `a.png`
and `a-1.png`, and the full pipeline conclusion holds at that input. -/
theorem C7_witness :
    assignedNames ["a.png", "a.png"] = ["a.png", "a-1.png"]
    ∧ (∃ r w', process_inference envFixture worldFixture
          [⟨"a.png", [1]⟩, ⟨"a.png", [2]⟩] none "cpu" false false ["root"] = (Except.ok r, w')
        ∧ r.outputs.map (fun o => o.name)
            = assignedNames ([⟨"a.png", [1]⟩, ⟨"a.png", [2]⟩].map
                (fun u : UploadPayload => u.filename))
        ∧ (∀ o ∈ r.outputs, o.ply = pyStem o.name ++ ".ply"
            ∧ o.preview = pyStem o.name ++ ".preview.jpg")
        ∧ (r.outputs.map (fun o => o.name)).Nodup
        ∧ (indexedInputNames (r.outputs.map (fun o => o.name))).Nodup
        ∧ ((r.outputs.map (fun o => o.name)).map pyStem |>.Nodup →
            (plyNames (r.outputs.map (fun o => o.name))).Nodup
            ∧ (previewNames (r.outputs.map (fun o => o.name))).Nodup)
        ∧ (∀ o1 ∈ r.outputs, ∀ o2 ∈ r.outputs, o1.ply ≠ o2.preview)
        ∧ (∀ n ∈ indexedInputNames (r.outputs.map (fun o => o.name)),
            (["root"] ++ [mkRunId envFixture] ++ [n]) ∈ w'.fs.files)
        ∧ (∀ o ∈ r.outputs,
            (["root"] ++ [mkRunId envFixture] ++ [o.ply]) ∈ w'.fs.files
            ∧ (["root"] ++ [mkRunId envFixture] ++ [o.preview]) ∈ w'.fs.files)) :=
  ⟨by decide,
   C7_filename_pipeline envFixture worldFixture [⟨"a.png", [1]⟩, ⟨"a.png", [2]⟩] none "cpu"
     false false ["root"] "cpu" (by decide) (by decide) (by decide)⟩

/-- Witness for C8 at one upload with device cpu and render requested. -/
theorem C8_witness :
    ∃ r w', process_inference envFixture worldFixture [⟨"a.png", [1]⟩] none "cpu" true false
        ["root"] = (Except.ok r, w')
      ∧ r.render_enabled = false
      ∧ renderWarning ∈ r.warnings
      ∧ (∀ o ∈ r.outputs, o.video = none ∧ o.depth_video = none) :=
  C8_render_ineligible_succeeds envFixture worldFixture [⟨"a.png", [1]⟩] none "cpu" false
    ["root"] "cpu" (by decide) (by decide) (by decide) (by decide)

/-- Witness for C9 at a concrete rejected checkpoint upload. -/
theorem C9_witness :
    process_inference envUnsafeFixture worldFixture [⟨"a.png", [1]⟩] (some ⟨"ck", [9]⟩) "cpu"
        false false ["root"] =
      (Except.error { status := 400, detail := getErrorMessage GetError.deserializationRejected },
       { fs := fsAfterStored envUnsafeFixture worldFixture.fs (some ⟨"ck", [9]⟩) ["root"]
           (["root"] ++ [mkRunId envUnsafeFixture])
         cache := (PredictorCache.get envUnsafeFixture worldFixture.cache
           (checkpointIdentity envUnsafeFixture (some ⟨"ck", [9]⟩) ["root"]) "cpu" false).2 })
    ∧ (["root"] ++ [mkRunId envUnsafeFixture])
        ∈ (fsAfterStored envUnsafeFixture worldFixture.fs (some ⟨"ck", [9]⟩) ["root"]
            (["root"] ++ [mkRunId envUnsafeFixture])).files
    ∧ (∀ cp, (some ⟨"ck", [9]⟩ : Option UploadPayload) = some cp →
        (["root"] ++ ["_checkpoints", envUnsafeFixture.digest cp.content ++ ".pt"])
          ∈ (fsAfterStored envUnsafeFixture worldFixture.fs (some ⟨"ck", [9]⟩) ["root"]
              (["root"] ++ [mkRunId envUnsafeFixture])).files) :=
  C9_engine_failure_leaves_files envUnsafeFixture worldFixture [⟨"a.png", [1]⟩]
    (some ⟨"ck", [9]⟩) "cpu" false false ["root"] "cpu" GetError.deserializationRejected
    (by decide) (by decide) (by decide)

/-- Witness for C10 at a cache hit on an unsafely-loaded entry. -/
theorem C10_witness :
    ∃ r w', process_inference envFixture worldUnsafeHit [⟨"a.png", [1]⟩] none "cpu" false true
        ["root"] = (Except.ok r, w')
      ∧ unsafeWarning ∈ r.warnings
      ∧ ((List.lookup ((checkpointIdentity envFixture none ["root"]).getD "default", "cpu")
            worldUnsafeHit.cache.models).isSome = true → w'.cache = worldUnsafeHit.cache) :=
  C10_unsafe_engine_warns envFixture worldUnsafeHit [⟨"a.png", [1]⟩] none "cpu" false true
    ["root"] "cpu" 7 (by decide) (by decide) (by decide)

